import Mathlib

/- Verification development for the pr_genius repository.

   Modelled code:
   - the side-by-side line diff (LCS table plus backtracking) and the unified
     diff text builder from the PR review component;
   - batch pagination and analysis merging from the App startAnalysis and
     loadNextBatch handlers;
   - parsePRUrl from the Azure DevOps service and from prCreationService;
   - the GLM analyzeBatch fallback object on a thrown error;
   - fetchBatchContents per-file content handling;
   - getPRReviewDetails optional-field defaulting.

   External HTTP calls and the LLM are nondeterministic inputs; they are
   modelled as explicit parameters (for example, the text a fetch returned,
   or the analysis object an AI call produced).  JavaScript machine strings
   are modelled as Lean strings; array index reads that can yield undefined
   are modelled with getD and a default that the surrounding code can never
   confuse with a real value (noted at each use). -/

/-- DiffLineType from the PR review component. -/
inductive DiffLineType where
  | same
  | added
  | removed
  | empty
  deriving DecidableEq, Repr

/-- DiffLine from the PR review component: lineNumber is null for filler rows. -/
structure DiffLine where
  text : String
  lineNumber : Option Nat
  type : DiffLineType
  deriving DecidableEq, Repr

/-- JavaScript s.split on the regular expression matching an optional carriage
    return followed by a newline: scans left to right, consuming a CR only
    together with an immediately following LF.  Always returns at least one
    (possibly empty) piece. -/
def splitLinesAux : List Char → List Char → List String
  | [], acc => [String.mk acc.reverse]
  | '\r' :: '\n' :: rest, acc => String.mk acc.reverse :: splitLinesAux rest []
  | '\n' :: rest, acc => String.mk acc.reverse :: splitLinesAux rest []
  | c :: rest, acc => splitLinesAux rest (c :: acc)

/-- The line splitting performed at the top of buildSideBySideDiff
    (normalizeContent is the identity on strings). -/
def splitLines (s : String) : List String :=
  splitLinesAux s.data []

/-- The lcsTable array from buildSideBySideDiff: entry (i, j) is the dynamic
    programming value for the first i source lines and the first j target
    lines.  The code only fills and reads entries with i and j in range; the
    getD default is irrelevant there. -/
def lcsTable (sl tl : List String) : Nat → Nat → Nat
  | 0, _ => 0
  | _ + 1, 0 => 0
  | i + 1, j + 1 =>
    if sl.getD i "" = tl.getD j "" then
      lcsTable sl tl i j + 1
    else
      max (lcsTable sl tl i (j + 1)) (lcsTable sl tl (i + 1) j)
  termination_by i j => i + j

/-- The backtracking while loop of buildSideBySideDiff, written as recursion on
    the loop indices.  The source pushes entries while walking (i, j) down to
    (0, 0) and reverses both arrays at the end; here each step appends its
    entry after the recursive result, which produces the reversed order
    directly. -/
def goDiff (sl tl : List String) : Nat → Nat → List DiffLine × List DiffLine
  | 0, 0 => ([], [])
  | 0, j + 1 =>
    ((goDiff sl tl 0 j).1 ++ [⟨"", none, .empty⟩],
     (goDiff sl tl 0 j).2 ++ [⟨tl.getD j "", some (j + 1), .added⟩])
  | i + 1, 0 =>
    ((goDiff sl tl i 0).1 ++ [⟨sl.getD i "", some (i + 1), .removed⟩],
     (goDiff sl tl i 0).2 ++ [⟨"", none, .empty⟩])
  | i + 1, j + 1 =>
    if sl.getD i "" = tl.getD j "" then
      ((goDiff sl tl i j).1 ++ [⟨sl.getD i "", some (i + 1), .same⟩],
       (goDiff sl tl i j).2 ++ [⟨tl.getD j "", some (j + 1), .same⟩])
    else if lcsTable sl tl (i + 1) j ≥ lcsTable sl tl i (j + 1) then
      ((goDiff sl tl (i + 1) j).1 ++ [⟨"", none, .empty⟩],
       (goDiff sl tl (i + 1) j).2 ++ [⟨tl.getD j "", some (j + 1), .added⟩])
    else
      ((goDiff sl tl i (j + 1)).1 ++ [⟨sl.getD i "", some (i + 1), .removed⟩],
       (goDiff sl tl i (j + 1)).2 ++ [⟨"", none, .empty⟩])
  termination_by i j => i + j

/-- buildSideBySideDiff from the PR review component. -/
def buildSideBySideDiff (source target : String) :
    List DiffLine × List DiffLine :=
  let sourceLines := splitLines source
  let targetLines := splitLines target
  goDiff sourceLines targetLines sourceLines.length targetLines.length

/-- The loop body of buildUnifiedDiffText: the added branch, then the removed
    branch, then the context branch. -/
def unifiedRow (p : DiffLine × DiffLine) : String :=
  if p.2.type = DiffLineType.added then "+" ++ p.2.text
  else if p.1.type = DiffLineType.removed then "-" ++ p.1.text
  else " " ++ p.1.text

/-- buildUnifiedDiffText from the PR review component.  The loop reads the
    left and right arrays at the same index; the two arrays always have equal
    length, so the traversal is a zip. -/
def buildUnifiedDiffText (baseText updatedText filePath : String) : String :=
  let diff := buildSideBySideDiff baseText updatedText
  let body := (diff.1.zip diff.2).map unifiedRow
  String.intercalate "\n"
    (("--- a/" ++ filePath) :: ("+++ b/" ++ filePath) :: body)

/-- Specification-side definition: length of a longest common subsequence,
    by the textbook head recursion. -/
def lcsLen : List String → List String → Nat
  | [], _ => 0
  | _ :: _, [] => 0
  | a :: as, b :: bs =>
    if a = b then lcsLen as bs + 1
    else max (lcsLen as (b :: bs)) (lcsLen (a :: as) bs)

/-- The rows of a diff half that survive deleting the filler rows. -/
def keptRows (l : List DiffLine) : List DiffLine :=
  l.filter fun d => decide (d.type ≠ DiffLineType.empty)

/-- The aligned pairs both sides mark as same. -/
def samePairs (l r : List DiffLine) : List (DiffLine × DiffLine) :=
  (l.zip r).filter fun p =>
    decide (p.1.type = DiffLineType.same ∧ p.2.type = DiffLineType.same)

theorem lcsLen_nil_right : ∀ xs : List String, lcsLen xs [] = 0 := by
  intro xs
  cases xs <;> simp [lcsLen]

/-- The DP table agrees with the textbook LCS length on the reversed
    prefixes. -/
theorem lcsTable_eq_lcsLen (sl tl : List String) :
    ∀ N i j, i + j ≤ N → i ≤ sl.length → j ≤ tl.length →
      lcsTable sl tl i j = lcsLen ((sl.take i).reverse) ((tl.take j).reverse) := by
  intro N
  induction N with
  | zero =>
    intro i j hN _ _
    have hi0 : i = 0 := by omega
    have hj0 : j = 0 := by omega
    subst hi0; subst hj0
    simp [lcsTable, lcsLen]
  | succ n ih =>
    intro i j hN hi hj
    rcases i with _ | i
    · simp [lcsTable, lcsLen]
    rcases j with _ | j
    · simp [lcsTable, lcsLen_nil_right]
    have hlt_i : i < sl.length := by omega
    have hlt_j : j < tl.length := by omega
    have hsl : sl.getD i "" = sl[i] := List.getD_eq_getElem sl "" hlt_i
    have htl : tl.getD j "" = tl[j] := List.getD_eq_getElem tl "" hlt_j
    have hTs : (sl.take (i + 1)).reverse = sl[i] :: (sl.take i).reverse := by
      rw [List.take_succ, List.getElem?_eq_getElem hlt_i]
      simp
    have hTt : (tl.take (j + 1)).reverse = tl[j] :: (tl.take j).reverse := by
      rw [List.take_succ, List.getElem?_eq_getElem hlt_j]
      simp
    rw [lcsTable, hTs, hTt, lcsLen, hsl, htl]
    by_cases hab : sl[i] = tl[j]
    · rw [if_pos hab, if_pos hab, ih i j (by omega) (by omega) (by omega)]
    · rw [if_neg hab, if_neg hab,
        ih i (j + 1) (by omega) (by omega) (by omega),
        ih (i + 1) j (by omega) (by omega) (by omega), hTs, hTt]

/-- Any common subsequence is at most as long as the textbook LCS length. -/
theorem length_le_lcsLen :
    ∀ N (xs ys c : List String), xs.length + ys.length ≤ N →
      c.Sublist xs → c.Sublist ys → c.length ≤ lcsLen xs ys := by
  intro N
  induction N with
  | zero =>
    intro xs ys c hN hcx _
    have hx : xs = [] := by
      cases xs with
      | nil => rfl
      | cons _ _ => simp at hN
    subst hx
    have : c = [] := List.sublist_nil.mp hcx
    subst this
    simp
  | succ n ih =>
    intro xs ys c hN hcx hcy
    cases xs with
    | nil =>
      have : c = [] := List.sublist_nil.mp hcx
      subst this; simp
    | cons a as =>
      cases ys with
      | nil =>
        have : c = [] := List.sublist_nil.mp hcy
        subst this; simp
      | cons b bs =>
        cases c with
        | nil => simp
        | cons x cs =>
          simp only [List.length_cons] at hN
          cases hcx with
          | cons _ hx =>
            by_cases hab : a = b
            · subst hab
              rw [lcsLen, if_pos rfl]
              cases hcy with
              | cons _ hy =>
                have := ih as bs (x :: cs) (by omega) hx hy
                omega
              | cons₂ _ hy =>
                have hx' : cs.Sublist as := (List.sublist_cons_self a cs).trans hx
                have := ih as bs cs (by omega) hx' hy
                simp only [List.length_cons]
                omega
            · rw [lcsLen, if_neg hab]
              have := ih as (b :: bs) (x :: cs) (by simp; omega) hx hcy
              exact le_trans this (le_max_left _ _)
          | cons₂ _ hx =>
            cases hcy with
            | cons _ hy =>
              by_cases hab : a = b
              · subst hab
                rw [lcsLen, if_pos rfl]
                have hy' : cs.Sublist bs := (List.sublist_cons_self a cs).trans hy
                have := ih as bs cs (by omega) hx hy'
                simp only [List.length_cons]
                omega
              · rw [lcsLen, if_neg hab]
                have hax : (a :: cs).Sublist (a :: as) := List.cons_sublist_cons.mpr hx
                have := ih (a :: as) bs (a :: cs) (by simp; omega) hax hy
                exact le_trans this (le_max_right _ _)
            | cons₂ _ hy =>
              rw [lcsLen, if_pos rfl]
              have := ih as bs cs (by omega) hx hy
              simp only [List.length_cons]
              omega

/-- The two halves of the diff always have the same length. -/
theorem goDiff_length (sl tl : List String) :
    ∀ N i j, i + j ≤ N →
      (goDiff sl tl i j).1.length = (goDiff sl tl i j).2.length := by
  intro N
  induction N with
  | zero =>
    intro i j hN
    have hi : i = 0 := by omega
    have hj : j = 0 := by omega
    subst hi; subst hj
    simp [goDiff]
  | succ n ih =>
    intro i j hN
    rcases i with _ | i <;> rcases j with _ | j
    · simp [goDiff]
    · simp only [goDiff]
      simp [ih 0 j (by omega)]
    · simp only [goDiff]
      simp [ih i 0 (by omega)]
    · rw [goDiff]
      split_ifs with h1 h2 <;>
        simp [ih i j (by omega), ih (i + 1) j (by omega), ih i (j + 1) (by omega)]


theorem take_succ_getD {α : Type} (l : List α) (j : Nat) (d : α)
    (h : j < l.length) : l.take j ++ [l[j]?.getD d] = l.take (j + 1) := by
  rw [List.getElem?_eq_getElem h, List.take_succ, List.getElem?_eq_getElem h]
  rfl

theorem range_succ_map (j : Nat) :
    (List.range j).map (fun k => some (k + 1)) ++ [some (j + 1)]
      = (List.range (j + 1)).map (fun k => some (k + 1)) := by
  rw [List.range_succ]
  simp

theorem keptRows_append (l : List DiffLine) (d : DiffLine) :
    keptRows (l ++ [d]) =
      keptRows l ++ (if d.type = DiffLineType.empty then [] else [d]) := by
  unfold keptRows
  rw [List.filter_append]
  by_cases h : d.type = DiffLineType.empty
  · simp [h]
  · simp [h]

/-- Deleting the filler rows from either half recovers the corresponding
    input lines in order, with one-based line numbers. -/
theorem goDiff_kept (sl tl : List String) :
    ∀ N i j, i + j ≤ N → i ≤ sl.length → j ≤ tl.length →
      (keptRows (goDiff sl tl i j).1).map DiffLine.text = sl.take i
      ∧ (keptRows (goDiff sl tl i j).1).map DiffLine.lineNumber
          = (List.range i).map (fun k => some (k + 1))
      ∧ (keptRows (goDiff sl tl i j).2).map DiffLine.text = tl.take j
      ∧ (keptRows (goDiff sl tl i j).2).map DiffLine.lineNumber
          = (List.range j).map (fun k => some (k + 1)) := by
  intro N
  induction N with
  | zero =>
    intro i j hN hi hj
    have hi0 : i = 0 := by omega
    have hj0 : j = 0 := by omega
    subst hi0; subst hj0
    simp [goDiff, keptRows]
  | succ n ih =>
    intro i j hN hi hj
    rcases i with _ | i <;> rcases j with _ | j
    · simp [goDiff, keptRows]
    · obtain ⟨h1, h2, h3, h4⟩ := ih 0 j (by omega) (by omega) (by omega)
      have hj' : j < tl.length := by omega
      simp only [goDiff, keptRows_append]
      refine ⟨?_, ?_, ?_, ?_⟩
      · simp [h1]
      · simp [h2]
      · simp only [List.map_append, h3]
        simp
        exact take_succ_getD tl j "" hj'
      · simp only [List.map_append, h4]
        simp
        exact range_succ_map j
    · obtain ⟨h1, h2, h3, h4⟩ := ih i 0 (by omega) (by omega) (by omega)
      have hi' : i < sl.length := by omega
      simp only [goDiff, keptRows_append]
      refine ⟨?_, ?_, ?_, ?_⟩
      · simp only [List.map_append, h1]
        simp
        exact take_succ_getD sl i "" hi'
      · simp only [List.map_append, h2]
        simp
        exact range_succ_map i
      · simp [h3]
      · simp [h4]
    · have hi' : i < sl.length := by omega
      have hj' : j < tl.length := by omega
      rw [goDiff]
      split_ifs with hsame hge
      · obtain ⟨h1, h2, h3, h4⟩ := ih i j (by omega) (by omega) (by omega)
        simp only [keptRows_append]
        refine ⟨?_, ?_, ?_, ?_⟩
        · simp only [List.map_append, h1]
          simp
          exact take_succ_getD sl i "" hi'
        · simp only [List.map_append, h2]
          simp
          exact range_succ_map i
        · simp only [List.map_append, h3]
          simp
          exact take_succ_getD tl j "" hj'
        · simp only [List.map_append, h4]
          simp
          exact range_succ_map j
      · obtain ⟨h1, h2, h3, h4⟩ := ih (i + 1) j (by omega) (by omega) (by omega)
        simp only [keptRows_append]
        refine ⟨?_, ?_, ?_, ?_⟩
        · simp [h1]
        · simp [h2]
        · simp only [List.map_append, h3]
          simp
          exact take_succ_getD tl j "" hj'
        · simp only [List.map_append, h4]
          simp
          exact range_succ_map j
      · obtain ⟨h1, h2, h3, h4⟩ := ih i (j + 1) (by omega) (by omega) (by omega)
        simp only [keptRows_append]
        refine ⟨?_, ?_, ?_, ?_⟩
        · simp only [List.map_append, h1]
          simp
          exact take_succ_getD sl i "" hi'
        · simp only [List.map_append, h2]
          simp
          exact range_succ_map i
        · simp [h3]
        · simp [h4]

/-- Every aligned row pair is same/same, empty/added, or removed/empty. -/
theorem goDiff_types (sl tl : List String) :
    ∀ N i j, i + j ≤ N →
      ∀ p ∈ (goDiff sl tl i j).1.zip (goDiff sl tl i j).2,
        (p.1.type = DiffLineType.same ∧ p.2.type = DiffLineType.same)
        ∨ (p.1.type = DiffLineType.empty ∧ p.2.type = DiffLineType.added)
        ∨ (p.1.type = DiffLineType.removed ∧ p.2.type = DiffLineType.empty) := by
  intro N
  induction N with
  | zero =>
    intro i j hN
    have hi : i = 0 := by omega
    have hj : j = 0 := by omega
    subst hi; subst hj
    simp [goDiff]
  | succ n ih =>
    intro i j hN p hp
    have hzip : ∀ i' j', i' + j' ≤ n →
        ∀ x y,
          ((goDiff sl tl i' j').1 ++ [x]).zip ((goDiff sl tl i' j').2 ++ [y])
            = (goDiff sl tl i' j').1.zip (goDiff sl tl i' j').2 ++ [(x, y)] := by
      intro i' j' h x y
      exact List.zip_append (goDiff_length sl tl (i' + j') i' j' le_rfl)
    rcases i with _ | i <;> rcases j with _ | j
    · simp [goDiff] at hp
    · rw [goDiff, hzip 0 j (by omega)] at hp
      rcases List.mem_append.mp hp with h | h
      · exact ih 0 j (by omega) p h
      · simp at h
        subst h
        simp
    · rw [goDiff, hzip i 0 (by omega)] at hp
      rcases List.mem_append.mp hp with h | h
      · exact ih i 0 (by omega) p h
      · simp at h
        subst h
        simp
    · rw [goDiff] at hp
      split_ifs at hp with hsame hge
      · rw [hzip i j (by omega)] at hp
        rcases List.mem_append.mp hp with h | h
        · exact ih i j (by omega) p h
        · simp at h
          subst h
          simp
      · rw [hzip (i + 1) j (by omega)] at hp
        rcases List.mem_append.mp hp with h | h
        · exact ih (i + 1) j (by omega) p h
        · simp at h
          subst h
          simp
      · rw [hzip i (j + 1) (by omega)] at hp
        rcases List.mem_append.mp hp with h | h
        · exact ih i (j + 1) (by omega) p h
        · simp at h
          subst h
          simp

theorem samePairs_append (l r : List DiffLine) (x y : DiffLine)
    (h : l.length = r.length) :
    samePairs (l ++ [x]) (r ++ [y]) =
      samePairs l r ++
        (if x.type = DiffLineType.same ∧ y.type = DiffLineType.same
          then [(x, y)] else []) := by
  unfold samePairs
  rw [List.zip_append h, List.filter_append]
  by_cases hxy : x.type = DiffLineType.same ∧ y.type = DiffLineType.same
  · simp [hxy]
  · simp [hxy]

theorem lcsTable_zero_right (sl tl : List String) :
    ∀ i, lcsTable sl tl i 0 = 0 := by
  intro i
  cases i <;> simp [lcsTable]

theorem take_sublist_take_succ {α : Type} (l : List α) (j : Nat)
    (h : j < l.length) : (l.take j).Sublist (l.take (j + 1)) := by
  rw [List.take_succ, List.getElem?_eq_getElem h]
  exact List.sublist_append_left _ _

/-- The rows both sides mark as same carry equal texts, form a common
    subsequence of the two line lists, and there are exactly lcsTable i j of
    them. -/
theorem goDiff_same (sl tl : List String) :
    ∀ N i j, i + j ≤ N → i ≤ sl.length → j ≤ tl.length →
      (samePairs (goDiff sl tl i j).1 (goDiff sl tl i j).2).map
          (fun p => p.1.text)
        = (samePairs (goDiff sl tl i j).1 (goDiff sl tl i j).2).map
          (fun p => p.2.text)
      ∧ ((samePairs (goDiff sl tl i j).1 (goDiff sl tl i j).2).map
          (fun p => p.1.text)).Sublist (sl.take i)
      ∧ ((samePairs (goDiff sl tl i j).1 (goDiff sl tl i j).2).map
          (fun p => p.1.text)).Sublist (tl.take j)
      ∧ (samePairs (goDiff sl tl i j).1 (goDiff sl tl i j).2).length
          = lcsTable sl tl i j := by
  intro N
  induction N with
  | zero =>
    intro i j hN hi hj
    have hi0 : i = 0 := by omega
    have hj0 : j = 0 := by omega
    subst hi0; subst hj0
    simp [goDiff, samePairs, lcsTable]
  | succ n ih =>
    intro i j hN hi hj
    have hlen : ∀ i' j',
        (goDiff sl tl i' j').1.length = (goDiff sl tl i' j').2.length :=
      fun i' j' => goDiff_length sl tl (i' + j') i' j' le_rfl
    rcases i with _ | i <;> rcases j with _ | j
    · simp [goDiff, samePairs, lcsTable]
    · obtain ⟨h1, h2, h3, h4⟩ := ih 0 j (by omega) (by omega) (by omega)
      have hj' : j < tl.length := by omega
      rw [goDiff, samePairs_append _ _ _ _ (hlen 0 j)]
      simp only [List.append_nil, if_neg (by simp : ¬(DiffLineType.empty = DiffLineType.same ∧ DiffLineType.added = DiffLineType.same))]
      refine ⟨h1, h2, h3.trans (take_sublist_take_succ tl j hj'), ?_⟩
      rw [h4]
      simp [lcsTable]
    · obtain ⟨h1, h2, h3, h4⟩ := ih i 0 (by omega) (by omega) (by omega)
      have hi' : i < sl.length := by omega
      rw [goDiff, samePairs_append _ _ _ _ (hlen i 0)]
      simp only [List.append_nil, if_neg (by simp : ¬(DiffLineType.removed = DiffLineType.same ∧ DiffLineType.empty = DiffLineType.same))]
      refine ⟨h1, h2.trans (take_sublist_take_succ sl i hi'), h3, ?_⟩
      rw [h4, lcsTable_zero_right, lcsTable_zero_right]
    · have hi' : i < sl.length := by omega
      have hj' : j < tl.length := by omega
      rw [goDiff]
      split_ifs with hsame hge
      · obtain ⟨h1, h2, h3, h4⟩ := ih i j (by omega) (by omega) (by omega)
        rw [samePairs_append _ _ _ _ (hlen i j)]
        rw [if_pos (show DiffLineType.same = DiffLineType.same ∧ DiffLineType.same = DiffLineType.same from ⟨rfl, rfl⟩)]
        have hgetS : sl.getD i "" = sl[i] := List.getD_eq_getElem sl "" hi'
        have hgetT : tl.getD j "" = tl[j] := List.getD_eq_getElem tl "" hj'
        have hTs : sl.take (i + 1) = sl.take i ++ [sl[i]] := by
          rw [List.take_succ, List.getElem?_eq_getElem hi']
          rfl
        have hTt : tl.take (j + 1) = tl.take j ++ [tl[j]] := by
          rw [List.take_succ, List.getElem?_eq_getElem hj']
          rfl
        refine ⟨?_, ?_, ?_, ?_⟩
        · simp only [List.map_append, List.map_cons, List.map_nil, h1, hsame]
        · simp only [List.map_append, hTs, hgetS]
          exact h2.append (List.Sublist.refl _)
        · simp only [List.map_append, hTt]
          have : sl.getD i "" = tl[j] := by rw [hsame, hgetT]
          simp only [List.map_cons, List.map_nil, this]
          exact h3.append (List.Sublist.refl _)
        · rw [List.length_append, h4, lcsTable, if_pos hsame]
          simp
      · obtain ⟨h1, h2, h3, h4⟩ := ih (i + 1) j (by omega) (by omega) (by omega)
        rw [samePairs_append _ _ _ _ (hlen (i + 1) j)]
        simp only [List.append_nil, if_neg (by simp : ¬(DiffLineType.empty = DiffLineType.same ∧ DiffLineType.added = DiffLineType.same))]
        refine ⟨h1, h2, h3.trans (take_sublist_take_succ tl j hj'), ?_⟩
        rw [h4, lcsTable, if_neg hsame, Nat.max_eq_right hge]
      · obtain ⟨h1, h2, h3, h4⟩ := ih i (j + 1) (by omega) (by omega) (by omega)
        rw [samePairs_append _ _ _ _ (hlen i (j + 1))]
        simp only [List.append_nil, if_neg (by simp : ¬(DiffLineType.removed = DiffLineType.same ∧ DiffLineType.empty = DiffLineType.same))]
        refine ⟨h1, h2.trans (take_sublist_take_succ sl i hi'), h3, ?_⟩
        rw [h4, lcsTable, if_neg hsame, Nat.max_eq_left (le_of_lt (lt_of_not_ge hge))]

/-- The texts of the rows both halves mark as same, read off the left half. -/
def sameAligned (source target : String) : List String :=
  (samePairs (buildSideBySideDiff source target).1
    (buildSideBySideDiff source target).2).map fun p => p.1.text

/-- C1: the positions marked same on both sides of buildSideBySideDiff carry
    equal texts on both sides, those texts are a common subsequence of the
    split source lines and the split target lines, and no common subsequence
    of the two line lists is longer, so their number is the length of a
    longest common subsequence. -/
theorem buildSideBySideDiff_lcs (source target : String) :
    sameAligned source target
        = (samePairs (buildSideBySideDiff source target).1
            (buildSideBySideDiff source target).2).map (fun p => p.2.text)
    ∧ (sameAligned source target).Sublist (splitLines source)
    ∧ (sameAligned source target).Sublist (splitLines target)
    ∧ ∀ c : List String, c.Sublist (splitLines source) →
        c.Sublist (splitLines target) →
        c.length ≤ (sameAligned source target).length := by
  unfold sameAligned buildSideBySideDiff
  obtain ⟨h1, h2, h3, h4⟩ :=
    goDiff_same (splitLines source) (splitLines target)
      ((splitLines source).length + (splitLines target).length)
      (splitLines source).length (splitLines target).length
      le_rfl le_rfl le_rfl
  rw [List.take_length] at h2
  rw [List.take_length] at h3
  refine ⟨h1, h2, h3, ?_⟩
  intro c hcs hct
  have hmax := length_le_lcsLen
    ((splitLines source).reverse.length + (splitLines target).reverse.length)
    (splitLines source).reverse (splitLines target).reverse c.reverse
    le_rfl hcs.reverse hct.reverse
  have htab := lcsTable_eq_lcsLen (splitLines source) (splitLines target)
    ((splitLines source).length + (splitLines target).length)
    (splitLines source).length (splitLines target).length
    le_rfl le_rfl le_rfl
  rw [List.take_length, List.take_length] at htab
  rw [List.length_reverse] at hmax
  rw [List.length_map, h4, htab]
  exact hmax

/-- C2: buildSideBySideDiff returns halves of equal length; deleting the
    filler rows from the left half yields the source lines in order with
    one-based line numbers, and likewise for the right half and the target
    lines. -/
theorem buildSideBySideDiff_projections (source target : String) :
    (buildSideBySideDiff source target).1.length
        = (buildSideBySideDiff source target).2.length
    ∧ (keptRows (buildSideBySideDiff source target).1).map DiffLine.text
        = splitLines source
    ∧ (keptRows (buildSideBySideDiff source target).1).map DiffLine.lineNumber
        = (List.range (splitLines source).length).map (fun k => some (k + 1))
    ∧ (keptRows (buildSideBySideDiff source target).2).map DiffLine.text
        = splitLines target
    ∧ (keptRows (buildSideBySideDiff source target).2).map DiffLine.lineNumber
        = (List.range (splitLines target).length).map (fun k => some (k + 1)) := by
  unfold buildSideBySideDiff
  obtain ⟨h1, h2, h3, h4⟩ :=
    goDiff_kept (splitLines source) (splitLines target)
      ((splitLines source).length + (splitLines target).length)
      (splitLines source).length (splitLines target).length
      le_rfl le_rfl le_rfl
  rw [List.take_length] at h1
  rw [List.take_length] at h3
  exact ⟨goDiff_length (splitLines source) (splitLines target)
      ((splitLines source).length + (splitLines target).length)
      (splitLines source).length (splitLines target).length le_rfl,
    h1, h2, h3, h4⟩

/-- Default row used only to state index lookups; every use is guarded by an
    in-range hypothesis. -/
def diffRowDefault : DiffLine := ⟨"", none, DiffLineType.empty⟩

/-- C9: at every index, the pair of row types is same/same, empty/added or
    removed/empty, and consequently exactly one of the three branches of the
    buildUnifiedDiffText loop applies there. -/
theorem buildSideBySideDiff_typePairs (source target : String) :
    ∀ k, k < (buildSideBySideDiff source target).1.length →
      (((buildSideBySideDiff source target).1.getD k diffRowDefault).type,
        ((buildSideBySideDiff source target).2.getD k diffRowDefault).type)
          ∈ ([(DiffLineType.same, DiffLineType.same),
              (DiffLineType.empty, DiffLineType.added),
              (DiffLineType.removed, DiffLineType.empty)]
            : List (DiffLineType × DiffLineType))
      ∧ (let L := (buildSideBySideDiff source target).1.getD k diffRowDefault
         let R := (buildSideBySideDiff source target).2.getD k diffRowDefault
         (R.type = DiffLineType.added ∧ ¬L.type = DiffLineType.removed
            ∧ ¬(L.type = DiffLineType.same ∧ R.type = DiffLineType.same)
            ∧ unifiedRow (L, R) = "+" ++ R.text)
         ∨ (¬R.type = DiffLineType.added ∧ L.type = DiffLineType.removed
            ∧ ¬(L.type = DiffLineType.same ∧ R.type = DiffLineType.same)
            ∧ unifiedRow (L, R) = "-" ++ L.text)
         ∨ (¬R.type = DiffLineType.added ∧ ¬L.type = DiffLineType.removed
            ∧ (L.type = DiffLineType.same ∧ R.type = DiffLineType.same)
            ∧ unifiedRow (L, R) = " " ++ L.text)) := by
  intro k hk
  have hlen : (buildSideBySideDiff source target).1.length
      = (buildSideBySideDiff source target).2.length :=
    goDiff_length (splitLines source) (splitLines target)
      ((splitLines source).length + (splitLines target).length)
      (splitLines source).length (splitLines target).length le_rfl
  have hk2 : k < (buildSideBySideDiff source target).2.length := hlen ▸ hk
  have hkz : k < ((buildSideBySideDiff source target).1.zip
      (buildSideBySideDiff source target).2).length := by
    rw [List.length_zip]
    omega
  have hmem : ((buildSideBySideDiff source target).1[k],
      (buildSideBySideDiff source target).2[k])
      ∈ (buildSideBySideDiff source target).1.zip
        (buildSideBySideDiff source target).2 := by
    have := List.getElem_mem hkz
    rwa [List.getElem_zip] at this
  have htypes := goDiff_types (splitLines source) (splitLines target)
    ((splitLines source).length + (splitLines target).length)
    (splitLines source).length (splitLines target).length le_rfl
    _ hmem
  rw [List.getD_eq_getElem _ _ hk, List.getD_eq_getElem _ _ hk2]
  rcases htypes with ⟨hL, hR⟩ | ⟨hL, hR⟩ | ⟨hL, hR⟩ <;>
    simp only [Prod.fst, Prod.snd] at hL hR <;>
    simp [unifiedRow, hL, hR]

theorem buildSideBySideDiff_lcs_witness :
    (["a", "c"] : List String).Sublist (splitLines "a\nb\nc")
    ∧ (["a", "c"] : List String).Sublist (splitLines "a\nc\nd")
    ∧ (["a", "c"] : List String).length
        ≤ (sameAligned "a\nb\nc" "a\nc\nd").length :=
  ⟨by decide, by decide,
    (buildSideBySideDiff_lcs "a\nb\nc" "a\nc\nd").2.2.2
      ["a", "c"] (by decide) (by decide)⟩


theorem buildSideBySideDiff_typePairs_witness :
    (((buildSideBySideDiff "a" "b").1.getD 0 diffRowDefault).type,
      ((buildSideBySideDiff "a" "b").2.getD 0 diffRowDefault).type)
        ∈ ([(DiffLineType.same, DiffLineType.same),
            (DiffLineType.empty, DiffLineType.added),
            (DiffLineType.removed, DiffLineType.empty)]
          : List (DiffLineType × DiffLineType)) :=
  (buildSideBySideDiff_typePairs "a" "b" 0
    (by simp [buildSideBySideDiff, goDiff, lcsTable, splitLines,
      splitLinesAux])).1

/-- JavaScript s.split with a single-character separator (kept character
    level so it computes by structural recursion). -/
def splitOnCharAux (sep : Char) : List Char → List Char → List String
  | [], acc => [String.mk acc.reverse]
  | c :: rest, acc =>
    if c = sep then String.mk acc.reverse :: splitOnCharAux sep rest []
    else splitOnCharAux sep rest (c :: acc)

/-- JavaScript s.split on one character: always at least one piece. -/
def jsSplit (sep : Char) (s : String) : List String :=
  splitOnCharAux sep s.data []

/-- JavaScript a || b where a is an optionally-present string: an absent
    value and the empty string are falsy. -/
def jsOrS (a : Option String) (b : String) : String :=
  match a with
  | none => b
  | some s => if s = "" then b else s

/-- JavaScript a || b where both operands are optionally-present strings. -/
def jsOrO (a b : Option String) : Option String :=
  match a with
  | none => b
  | some s => if s = "" then b else some s

/-- AzureDevOpsParams from types.ts. -/
structure AzureDevOpsParams where
  organization : String
  project : String
  repository : String
  pullRequestId : String
  deriving DecidableEq, Repr

/-- The part of a parsed URL object that parsePRUrl reads. -/
structure JsUrl where
  hostname : String
  pathname : String
  deriving DecidableEq, Repr

namespace AzureDevOpsService

/-- parsePRUrl from the Azure DevOps service.  The argument is the result of
    the URL constructor: none when the constructor throws, in which case the
    catch returns null.  An out-of-range array read (JS undefined) is
    modelled by the empty-string default; no filtered path part and no
    compared literal is empty, so the defaulting never makes a comparison
    succeed that would fail in JS. -/
def parsePRUrl (u : Option JsUrl) : Option AzureDevOpsParams :=
  match u with
  | none => none
  | some prUrl =>
    let pathParts := (jsSplit '/' prUrl.pathname).filter fun p =>
      decide (p ≠ "")
    if pathParts.length ≥ 6 ∧ pathParts.getD 2 "" = "_git"
        ∧ pathParts.getD 4 "" = "pullrequest" then
      some ⟨pathParts.getD 0 "", pathParts.getD 1 "",
        pathParts.getD 3 "", pathParts.getD 5 ""⟩
    else
      let hostParts := jsSplit '.' prUrl.hostname
      if hostParts.getD 1 "" = "visualstudio"
          ∧ pathParts.getD 1 "" = "_git" then
        some ⟨hostParts.getD 0 "", pathParts.getD 0 "",
          pathParts.getD 2 "", pathParts.getD 4 ""⟩
      else none

end AzureDevOpsService

namespace PRCreationService

/-- parsePRUrl from prCreationService, transcribed from its own source text
    (it is line for line the same function as the Azure DevOps service one). -/
def parsePRUrl (u : Option JsUrl) : Option AzureDevOpsParams :=
  match u with
  | none => none
  | some prUrl =>
    let pathParts := (jsSplit '/' prUrl.pathname).filter fun p =>
      decide (p ≠ "")
    if pathParts.length ≥ 6 ∧ pathParts.getD 2 "" = "_git"
        ∧ pathParts.getD 4 "" = "pullrequest" then
      some ⟨pathParts.getD 0 "", pathParts.getD 1 "",
        pathParts.getD 3 "", pathParts.getD 5 ""⟩
    else
      let hostParts := jsSplit '.' prUrl.hostname
      if hostParts.getD 1 "" = "visualstudio"
          ∧ pathParts.getD 1 "" = "_git" then
        some ⟨hostParts.getD 0 "", pathParts.getD 0 "",
          pathParts.getD 2 "", pathParts.getD 4 ""⟩
      else none

end PRCreationService

/-- The filtered path segments of a URL, as parsePRUrl computes them. -/
def pathPartsOf (u : JsUrl) : List String :=
  (jsSplit '/' u.pathname).filter fun p => decide (p ≠ "")

/-- The dev.azure.com URL shape tested by parsePRUrl. -/
def devAzureShape (u : JsUrl) : Prop :=
  (pathPartsOf u).length ≥ 6 ∧ (pathPartsOf u).getD 2 "" = "_git"
    ∧ (pathPartsOf u).getD 4 "" = "pullrequest"

/-- The organization.visualstudio.com URL shape tested by parsePRUrl. -/
def visualStudioShape (u : JsUrl) : Prop :=
  (jsSplit '.' u.hostname).getD 1 "" = "visualstudio"
    ∧ (pathPartsOf u).getD 1 "" = "_git"

/-- C5: a URL whose filtered path segments start org, project, _git, repo,
    pullrequest, id parses to exactly those fields; an unparseable URL
    (the constructor threw) and a URL matching neither tested shape give
    null; and the function is total, so it never throws. -/
theorem parsePRUrl_spec :
    AzureDevOpsService.parsePRUrl none = none
    ∧ (∀ u org proj repo id rest,
        pathPartsOf u
            = org :: proj :: "_git" :: repo :: "pullrequest" :: id :: rest →
        AzureDevOpsService.parsePRUrl (some u)
            = some ⟨org, proj, repo, id⟩)
    ∧ (∀ u, ¬devAzureShape u → ¬visualStudioShape u →
        AzureDevOpsService.parsePRUrl (some u) = none) := by
  refine ⟨rfl, ?_, ?_⟩
  · intro u org proj repo id rest h
    have hp : (jsSplit '/' u.pathname).filter (fun p => decide (p ≠ ""))
        = org :: proj :: "_git" :: repo :: "pullrequest" :: id :: rest := h
    simp only [AzureDevOpsService.parsePRUrl]
    rw [hp]
    rw [if_pos]
    · rfl
    · refine ⟨by simp, rfl, rfl⟩
  · intro u h1 h2
    unfold devAzureShape pathPartsOf at h1
    unfold visualStudioShape pathPartsOf at h2
    simp only [AzureDevOpsService.parsePRUrl]
    rw [if_neg h1, if_neg h2]

theorem parsePRUrl_spec_witness :
    pathPartsOf ⟨"dev.azure.com", "/org/proj/_git/repo/pullrequest/42"⟩
        = "org" :: "proj" :: "_git" :: "repo" :: "pullrequest" :: "42" :: []
    ∧ AzureDevOpsService.parsePRUrl
        (some ⟨"dev.azure.com", "/org/proj/_git/repo/pullrequest/42"⟩)
        = some ⟨"org", "proj", "repo", "42"⟩ :=
  ⟨by decide,
    parsePRUrl_spec.2.1 ⟨"dev.azure.com", "/org/proj/_git/repo/pullrequest/42"⟩
      "org" "proj" "repo" "42" [] (by decide)⟩

/-- C10: the two parsePRUrl functions are extensionally equal. -/
theorem parsePRUrl_equivalent :
    ∀ u, PRCreationService.parsePRUrl u = AzureDevOpsService.parsePRUrl u := by
  intro u
  rfl

/-- BossStats from types.ts; the string-literal union types are modelled as
    strings. -/
structure BossStats where
  complexityScore : Int
  riskLevel : String
  estimatedReviewMinutes : Int
  blastRadius : String
  testPresence : String
  breakingChange : Bool
  deriving DecidableEq, Repr

/-- An entry of codeReviewComments from types.ts. -/
structure ReviewComment where
  file : String
  line : Option Int
  comment : String
  suggestedChange : Option String
  severity : String
  type : String
  deriving DecidableEq, Repr

/-- PRAnalysis from types.ts. -/
structure PRAnalysis where
  summary : String
  overallHealth : String
  architecturalImpact : String
  contextAlignment : Option String
  keyPoints : List String
  securityConcerns : List String
  performanceTips : List String
  stats : BossStats
  codeReviewComments : List ReviewComment
  deriving DecidableEq, Repr

/-- The fallback PRAnalysis built in the catch block of the GLM analyzeBatch
    (the comment text is error.message with the JS || fallback to
    Unknown error). -/
def glmFallbackAnalysis (msg : String) : PRAnalysis :=
  { summary := "Analysis failed - please try again"
    overallHealth := "Critical"
    architecturalImpact := "Unable to analyze"
    contextAlignment := some "Analysis incomplete"
    keyPoints := ["Analysis failed"]
    securityConcerns := ["Unable to complete security analysis"]
    performanceTips := ["Unable to analyze performance"]
    stats :=
      { complexityScore := 1
        riskLevel := "Critical"
        estimatedReviewMinutes := 0
        blastRadius := "Isolated"
        testPresence := "Missing"
        breakingChange := false }
    codeReviewComments :=
      [{ file := "analysis"
         line := some 1
         comment := "Analysis failed: "
           ++ (if msg = "" then "Unknown error" else msg)
         suggestedChange := none
         severity := "high"
         type := "logic" }] }

/-- The try/catch structure of the GLM analyzeBatch: the whole upstream call
    and response parsing are inside the try, so any throw there carries an
    error message into the catch, which resolves with the fallback object
    instead of rejecting.  The successful result of the try block is
    abstracted as the ok payload. -/
def glmAnalyzeBatchOutcome (r : Except String PRAnalysis) : PRAnalysis :=
  match r with
  | Except.ok a => a
  | Except.error msg => glmFallbackAnalysis msg

/-- C6: when the upstream call or response parsing throws, analyzeBatch
    resolves with the fallback object: its summary, overallHealth and
    stats.riskLevel are as documented, and it carries exactly one
    high-severity review comment whose text contains the error message. -/
theorem glmAnalyzeBatch_fallback (msg : String) :
    (glmAnalyzeBatchOutcome (Except.error msg)).summary
        = "Analysis failed - please try again"
    ∧ (glmAnalyzeBatchOutcome (Except.error msg)).overallHealth = "Critical"
    ∧ (glmAnalyzeBatchOutcome (Except.error msg)).stats.riskLevel = "Critical"
    ∧ ∃ c, (glmAnalyzeBatchOutcome (Except.error msg)).codeReviewComments = [c]
        ∧ c.severity = "high"
        ∧ ∃ pre post, c.comment = pre ++ msg ++ post := by
  refine ⟨rfl, rfl, rfl, ?_⟩
  refine ⟨_, rfl, rfl, ?_⟩
  by_cases h : msg = ""
  · subst h
    exact ⟨"Analysis failed: ", "Unknown error", by simp [glmAnalyzeBatchOutcome, glmFallbackAnalysis]⟩
  · exact ⟨"Analysis failed: ", "", by simp [glmAnalyzeBatchOutcome, glmFallbackAnalysis, h]⟩

/-- A raw change entry from the Azure DevOps changes payload, with the fields
    the services read.  itemString models change.item when it is a string. -/
structure RawChange where
  itemPath : Option String
  path : Option String
  itemString : Option String
  changeType : Option String
  sourceServerItem : Option String
  originalPath : Option String
  deriving DecidableEq, Repr

/-- PRInfo from types.ts. -/
structure PRInfo where
  title : String
  description : String
  createdBy : String
  sourceBranch : String
  targetBranch : String
  status : String
  deriving DecidableEq, Repr

/-- The slice of AppState from types.ts that startAnalysis and loadNextBatch
    read and write. -/
structure AppState where
  isAnalyzing : Bool
  error : Option String
  prInfo : Option PRInfo
  analysis : Option PRAnalysis
  allChanges : List RawChange
  processedCount : Nat
  commitId : Option String
  params : Option AzureDevOpsParams
  deriving DecidableEq, Repr

/-- Math.ceil(n / 10) on a natural count. -/
def ceilDiv10 (n : Nat) : Nat := (n + 9) / 10

/-- The per-batch AI call: the change slice whose contents are fetched and
    sent, and the batchIndex and totalBatches arguments of analyzeBatch. -/
structure AnalyzeCall where
  files : List RawChange
  batchIndex : Nat
  totalBatches : Nat
  deriving DecidableEq, Repr

/-- The success path of startAnalysis once metadata has arrived with a
    non-empty change list: the first batch is changes.slice(0, 10), the AI
    call gets batchIndex 0 and totalBatches Math.ceil(changes.length / 10),
    and the final setState stores the changes and processedCount
    firstBatch.length.  prInfo, commitId and the AI result are external
    inputs. -/
def startAnalysisSuccess (params : AzureDevOpsParams) (prInfo : PRInfo)
    (commitId : Option String) (changes : List RawChange)
    (initialAnalysis : PRAnalysis) : AnalyzeCall × AppState :=
  (⟨changes.take 10, 0, ceilDiv10 changes.length⟩,
   { isAnalyzing := false
     error := none
     prInfo := some prInfo
     analysis := some initialAnalysis
     allChanges := changes
     processedCount := (changes.take 10).length
     commitId := commitId
     params := some params })

/-- The merged PRAnalysis built inside the loadNextBatch setState: the list
    fields concatenate the previous analysis (empty when absent) with the new
    batch, every other field is taken from the new batch. -/
def mergeAnalysis (prev : Option PRAnalysis) (batch : PRAnalysis) :
    PRAnalysis :=
  { summary := batch.summary
    overallHealth := batch.overallHealth
    architecturalImpact := batch.architecturalImpact
    contextAlignment := batch.contextAlignment
    stats := batch.stats
    keyPoints :=
      (match prev with | some a => a.keyPoints | none => [])
        ++ batch.keyPoints
    securityConcerns :=
      (match prev with | some a => a.securityConcerns | none => [])
        ++ batch.securityConcerns
    performanceTips :=
      (match prev with | some a => a.performanceTips | none => [])
        ++ batch.performanceTips
    codeReviewComments :=
      (match prev with | some a => a.codeReviewComments | none => [])
        ++ batch.codeReviewComments }

/-- The next slice loadNextBatch sends:
    allChanges.slice(processedCount, processedCount + 10). -/
def loadNextBatchSlice (st : AppState) : List RawChange :=
  (st.allChanges.drop st.processedCount).take 10

/-- loadNextBatch: none models the early return of the guard; otherwise the
    AI call made and the state written on success, with the AI result an
    external input. -/
def loadNextBatch (st : AppState) (batchAnalysis : PRAnalysis) :
    Option (AnalyzeCall × AppState) :=
  if st.prInfo = none ∨ st.allChanges = [] ∨ st.params = none then none
  else
    some (⟨loadNextBatchSlice st, st.processedCount / 10,
        ceilDiv10 st.allChanges.length⟩,
      { st with
        isAnalyzing := false
        analysis := some (mergeAnalysis st.analysis batchAnalysis)
        processedCount :=
          st.processedCount + (loadNextBatchSlice st).length })

/-- C3: on a non-empty change list the first AI call gets exactly the first
    min(10, length) changes with batchIndex 0 and totalBatches the ceiling of
    length / 10, and processedCount becomes the first batch size; every
    successful loadNextBatch sends exactly the slice from processedCount to
    processedCount + 10 (at most ten files) and advances processedCount by
    that batch length. -/
theorem batching_spec :
    (∀ params prInfo commitId changes a, changes ≠ ([] : List RawChange) →
      (startAnalysisSuccess params prInfo commitId changes a).1.files.length
          = min 10 changes.length
      ∧ (∀ k, k < min 10 changes.length →
          (startAnalysisSuccess params prInfo commitId changes a).1.files[k]?
            = changes[k]?)
      ∧ (startAnalysisSuccess params prInfo commitId changes a).1.batchIndex
          = 0
      ∧ changes.length ≤ 10 *
          (startAnalysisSuccess params prInfo commitId changes a).1.totalBatches
      ∧ 10 * (startAnalysisSuccess params prInfo commitId changes
          a).1.totalBatches < changes.length + 10
      ∧ (startAnalysisSuccess params prInfo commitId changes
          a).2.processedCount
          = (startAnalysisSuccess params prInfo commitId changes
              a).1.files.length)
    ∧ (∀ st b call st2, loadNextBatch st b = some (call, st2) →
      (∀ k, call.files[k]?
          = if k < 10 then st.allChanges[st.processedCount + k]? else none)
      ∧ call.files.length ≤ 10
      ∧ st2.processedCount = st.processedCount + call.files.length) := by
  constructor
  · intro params prInfo commitId changes a hne
    refine ⟨?_, ?_, rfl, ?_, ?_, ?_⟩
    · simp [startAnalysisSuccess]
    · intro k hk
      simp only [startAnalysisSuccess, List.getElem?_take]
      rw [if_pos (by omega)]
    · simp only [startAnalysisSuccess, ceilDiv10]
      omega
    · simp only [startAnalysisSuccess, ceilDiv10]
      omega
    · rfl
  · intro st b call st2 h
    by_cases hg : st.prInfo = none ∨ st.allChanges = [] ∨ st.params = none
    · simp [loadNextBatch, hg] at h
    · simp only [loadNextBatch, if_neg hg, Option.some.injEq, Prod.mk.injEq]
        at h
      obtain ⟨hcall, hst2⟩ := h
      subst hcall hst2
      refine ⟨?_, ?_, rfl⟩
      · intro k
        simp only [loadNextBatchSlice, List.getElem?_take, List.getElem?_drop]
      · simp [loadNextBatchSlice]

/-- C4: the analysis stored by a successful loadNextBatch concatenates the
    four list fields of the previous analysis with the new batch and takes
    every other field from the new batch. -/
theorem loadNextBatch_merge :
    ∀ st b call st2 prevA, loadNextBatch st b = some (call, st2) →
      st.analysis = some prevA →
      ∃ m, st2.analysis = some m
        ∧ m.summary = b.summary
        ∧ m.overallHealth = b.overallHealth
        ∧ m.architecturalImpact = b.architecturalImpact
        ∧ m.contextAlignment = b.contextAlignment
        ∧ m.stats = b.stats
        ∧ m.keyPoints = prevA.keyPoints ++ b.keyPoints
        ∧ m.securityConcerns = prevA.securityConcerns ++ b.securityConcerns
        ∧ m.performanceTips = prevA.performanceTips ++ b.performanceTips
        ∧ m.codeReviewComments
            = prevA.codeReviewComments ++ b.codeReviewComments := by
  intro st b call st2 prevA h hprev
  by_cases hg : st.prInfo = none ∨ st.allChanges = [] ∨ st.params = none
  · simp [loadNextBatch, hg] at h
  · simp only [loadNextBatch, if_neg hg, Option.some.injEq, Prod.mk.injEq]
      at h
    obtain ⟨hcall, hst2⟩ := h
    subst hst2
    refine ⟨mergeAnalysis st.analysis b, rfl, rfl, rfl, rfl, rfl, rfl, ?_⟩
    rw [hprev]
    simp [mergeAnalysis]

def exampleStats : BossStats := ⟨5, "Low", 10, "Isolated", "Partial", false⟩

def exampleAnalysis : PRAnalysis :=
  ⟨"s", "Good", "ai", none, ["k1"], ["sc1"], ["pt1"], exampleStats, []⟩

def exampleAnalysis2 : PRAnalysis :=
  ⟨"s2", "Excellent", "ai2", some "ca", ["k2"], [], [], exampleStats, []⟩

def exampleChange : RawChange :=
  ⟨some "/a.ts", none, none, some "edit", none, none⟩

def examplePRInfo : PRInfo := ⟨"t", "d", "c", "sb", "tb", "active"⟩

def exampleParams : AzureDevOpsParams := ⟨"org", "proj", "repo", "42"⟩

def exampleState : AppState :=
  ⟨false, none, some examplePRInfo, some exampleAnalysis,
    [exampleChange, exampleChange], 1, none, some exampleParams⟩

theorem batching_spec_witness :
    [exampleChange] ≠ ([] : List RawChange)
    ∧ (startAnalysisSuccess exampleParams examplePRInfo none [exampleChange]
        exampleAnalysis).1.batchIndex = 0
    ∧ ∃ call st2, loadNextBatch exampleState exampleAnalysis2
        = some (call, st2)
      ∧ st2.processedCount
          = exampleState.processedCount + call.files.length :=
  ⟨by decide,
    (batching_spec.1 exampleParams examplePRInfo none [exampleChange]
      exampleAnalysis (by decide)).2.2.1,
    ⟨_, _, rfl,
      (batching_spec.2 exampleState exampleAnalysis2 _ _ rfl).2.2⟩⟩

theorem loadNextBatch_merge_witness :
    ∃ call st2 m, loadNextBatch exampleState exampleAnalysis2
        = some (call, st2)
      ∧ st2.analysis = some m
      ∧ m.keyPoints = exampleAnalysis.keyPoints ++ exampleAnalysis2.keyPoints
      := by
  obtain ⟨m, h1, _, _, _, _, _, h7, _⟩ :=
    loadNextBatch_merge exampleState exampleAnalysis2 _ _ exampleAnalysis
      rfl rfl
  exact ⟨_, _, m, rfl, h1, h7⟩

/-- ASCII case folding, as toLowerCase acts on the compared changeType
    values. -/
def asciiLowerChar (c : Char) : Char :=
  if c.isUpper then Char.ofNat (c.toNat + 32) else c

/-- changeType.toLowerCase() on the character level. -/
def asciiLower (s : String) : String := String.mk (s.data.map asciiLowerChar)

/-- The NUL character tested by the binary-file check. -/
def nulChar : Char := Char.ofNat 0

/-- content.includes of the NUL character. -/
def hasNul (s : String) : Bool := s.data.any fun c => c = nulChar

/-- content.substring(0, n) on the character level. -/
def jsTake (s : String) (n : Nat) : String := String.mk (s.data.take n)

/-- The 20000 character cut applied by fetchBatchContents. -/
def truncLimit : Nat := 20000

/-- The fixed truncation marker appended by fetchBatchContents. -/
def truncSuffix : String := "\n... [TRUNCATED]"

/-- The path resolution at the top of the fetchBatchContents mapper:
    item path, then change.path, then change.item when it is a string, with
    the falsy result of the chain turned into the early null return. -/
def fbPath (c : RawChange) : Option String :=
  match jsOrO (jsOrO c.itemPath c.path) c.itemString with
  | none => none
  | some p => if p = "" then none else some p

/-- Result of the per-file fetch, an external input: the request threw, the
    response was not ok, or a body text arrived. -/
inductive FetchOutcome where
  | thrown
  | notOk
  | ok (text : String)
  deriving DecidableEq, Repr

/-- The content computed inside the try block of the fetchBatchContents
    mapper: empty for a response that is not ok, the binary marker when the
    text contains NUL, the truncated text with the fixed suffix when it is
    longer than 20000 characters, the error marker when the fetch threw, and
    otherwise the text itself. -/
def fetchedContent (f : FetchOutcome) : String :=
  match f with
  | FetchOutcome.thrown => "[Error fetching content]"
  | FetchOutcome.notOk => ""
  | FetchOutcome.ok text =>
    if hasNul text then "[Binary File - Skipping analysis]"
    else if text.length > truncLimit then
      jsTake text truncLimit ++ truncSuffix
    else text

/-- The content field for one change: empty for the skipped change types,
    otherwise whatever the fetch produced. -/
def fileContentOf (c : RawChange) (f : FetchOutcome) : String :=
  let changeType := jsOrS c.changeType "edit"
  if asciiLower changeType = "delete" ∨ asciiLower changeType = "none" then ""
  else fetchedContent f

/-- FileDiff from types.ts as fetchBatchContents builds it. -/
structure FileDiff where
  path : String
  changeType : String
  content : String
  originalPath : Option String
  deriving DecidableEq, Repr

/-- fetchBatchContents: each change is paired with the outcome of its fetch;
    entries without a usable path become null and the final filter drops
    them. -/
def fetchBatchContents (entries : List (RawChange × FetchOutcome)) :
    List FileDiff :=
  (entries.map fun e =>
    match fbPath e.1 with
    | none => none
    | some p =>
      some
        { path := p
          changeType := jsOrS e.1.changeType "edit"
          content := fileContentOf e.1 e.2
          originalPath := jsOrO e.1.sourceServerItem e.1.originalPath }
  ).reduceOption

/-- C8: every FileDiff returned by fetchBatchContents carries the empty
    string, one of the two fixed markers, or the fetched text, truncated
    with the fixed suffix exactly when it exceeds 20000 characters; a text
    passed through verbatim never contains NUL, and no content exceeds
    20000 characters plus the suffix length. -/
theorem fetchBatchContents_content :
    ∀ entries fd, fd ∈ fetchBatchContents entries →
      (fd.content = ""
        ∨ fd.content = "[Binary File - Skipping analysis]"
        ∨ fd.content = "[Error fetching content]"
        ∨ ∃ text, hasNul text = false
            ∧ ((text.length ≤ truncLimit ∧ fd.content = text)
              ∨ (truncLimit < text.length
                  ∧ fd.content = jsTake text truncLimit ++ truncSuffix)))
      ∧ fd.content.length ≤ truncLimit + truncSuffix.length := by
  intro entries fd hmem
  have hsuf : truncSuffix.length = 16 := by decide
  have hlim : truncLimit = 20000 := rfl
  rw [fetchBatchContents, List.reduceOption_mem_iff, List.mem_map] at hmem
  obtain ⟨e, _, he⟩ := hmem
  obtain ⟨c, f⟩ := e
  rcases hpath : fbPath c with _ | p
  · rw [hpath] at he
    exact absurd he (by simp)
  · rw [hpath] at he
    have hc : fd.content = fileContentOf c f := by
      have := congrArg (Option.map FileDiff.content) he
      simp at this
      exact this.symm
    rw [hc]
    unfold fileContentOf
    by_cases hskip : asciiLower (jsOrS c.changeType "edit") = "delete"
        ∨ asciiLower (jsOrS c.changeType "edit") = "none"
    · rw [if_pos hskip]
      exact ⟨Or.inl rfl, by decide⟩
    · rw [if_neg hskip]
      rcases f with _ | _ | text <;> simp only [fetchedContent]
      · exact ⟨by simp, by decide⟩
      · exact ⟨by simp, by decide⟩
      · by_cases hnul : hasNul text = true
        · rw [if_pos hnul]
          exact ⟨Or.inr (Or.inl rfl), by decide⟩
        · rw [if_neg hnul]
          have hnul2 : hasNul text = false := by
            cases hval : hasNul text
            · rfl
            · exact absurd hval hnul
          by_cases hlen : text.length > truncLimit
          · rw [if_pos hlen]
            refine ⟨Or.inr (Or.inr (Or.inr
              ⟨text, hnul2, Or.inr ⟨hlen, rfl⟩⟩)), ?_⟩
            rw [String.length_append]
            have htake : (jsTake text truncLimit).length ≤ truncLimit := by
              have h1 : (jsTake text truncLimit).length
                  = (text.data.take truncLimit).length := rfl
              rw [h1, List.length_take]
              omega
            omega
          · rw [if_neg hlen]
            refine ⟨Or.inr (Or.inr (Or.inr
              ⟨text, hnul2, Or.inl ⟨by omega, rfl⟩⟩)), by omega⟩

theorem fetchBatchContents_content_witness :
    (⟨"/a.ts", "edit", "hello", none⟩ : FileDiff)
        ∈ fetchBatchContents [(exampleChange, FetchOutcome.ok "hello")]
    ∧ (⟨"/a.ts", "edit", "hello", none⟩ : FileDiff).content.length
        ≤ truncLimit + truncSuffix.length :=
  ⟨by decide,
    (fetchBatchContents_content [(exampleChange, FetchOutcome.ok "hello")]
      ⟨"/a.ts", "edit", "hello", none⟩ (by decide)).2⟩

/-- A displayName and uniqueName pair as rebuilt by getPRReviewDetails. -/
structure IdentityRef where
  displayName : String
  uniqueName : String
  deriving DecidableEq, Repr

/-- The createdBy object of the Azure DevOps response; every field the code
    touches may be missing. -/
structure CreatedByData where
  displayName : Option String
  uniqueName : Option String
  email : Option String
  deriving DecidableEq, Repr

/-- A reviewer entry; the code rebuilds reviewer, vote and isRequired with no
    defaulting. -/
structure ReviewerEntry where
  reviewer : IdentityRef
  vote : Int
  isRequired : Bool
  deriving DecidableEq, Repr

/-- A thread comment; the code rebuilds its fields with no defaulting. -/
structure CommentEntry where
  id : Nat
  author : IdentityRef
  content : String
  threadContext : Option String
  publishedDate : String
  lastUpdatedDate : String
  isDeleted : Bool
  deriving DecidableEq, Repr

/-- A thread of the response; comments may be missing. -/
structure ThreadData where
  id : Nat
  status : String
  comments : Option (List CommentEntry)
  threadContext : Option String
  publishedDate : String
  lastUpdatedDate : String
  deriving DecidableEq, Repr

/-- A rebuilt thread: comments defaulted to the empty list. -/
structure ThreadOut where
  id : Nat
  status : String
  comments : List CommentEntry
  threadContext : Option String
  publishedDate : String
  lastUpdatedDate : String
  deriving DecidableEq, Repr

/-- The project object nested in the response repository. -/
structure ProjectRef where
  name : Option String
  url : Option String
  deriving DecidableEq, Repr

/-- The repository object of the response. -/
structure RepositoryData where
  name : Option String
  url : Option String
  project : Option ProjectRef
  deriving DecidableEq, Repr

/-- A name and url pair as rebuilt for repository and project. -/
structure NameUrl where
  name : String
  url : String
  deriving DecidableEq, Repr

/-- The fields of a successful Azure DevOps pull request response that
    getPRReviewDetails reads; optional fields are those the code guards. -/
structure PRDetailsData where
  pullRequestId : Nat
  title : String
  description : Option String
  createdBy : Option CreatedByData
  creationDate : String
  sourceRefName : String
  targetRefName : String
  status : String
  mergeStatus : Option String
  reviewers : Option (List ReviewerEntry)
  threads : Option (List ThreadData)
  url : String
  repository : Option RepositoryData
  deriving DecidableEq, Repr

/-- PRReviewDetails as getPRReviewDetails returns it. -/
structure PRReviewDetails where
  pullRequestId : Nat
  title : String
  description : String
  createdBy : IdentityRef
  creationDate : String
  sourceRefName : String
  targetRefName : String
  status : String
  mergeStatus : String
  reviewers : List ReviewerEntry
  threads : List ThreadOut
  url : String
  repository : NameUrl
  project : NameUrl
  deriving DecidableEq, Repr

/-- The response mapping of getPRReviewDetails: the return object built from
    the awaited response data and the request params. -/
def getPRReviewDetailsMap (params : AzureDevOpsParams)
    (data : PRDetailsData) : PRReviewDetails :=
  { pullRequestId := data.pullRequestId
    title := data.title
    description := jsOrS data.description ""
    createdBy :=
      { displayName :=
          jsOrS (data.createdBy.bind CreatedByData.displayName) "Unknown"
        uniqueName :=
          jsOrS (jsOrO (data.createdBy.bind CreatedByData.uniqueName)
            (data.createdBy.bind CreatedByData.email)) "unknown@example.com" }
    creationDate := data.creationDate
    sourceRefName := data.sourceRefName
    targetRefName := data.targetRefName
    status := data.status
    mergeStatus := jsOrS data.mergeStatus "unknown"
    reviewers :=
      (data.reviewers.map (List.map fun r =>
        { reviewer :=
            { displayName := r.reviewer.displayName
              uniqueName := r.reviewer.uniqueName }
          vote := r.vote
          isRequired := r.isRequired })).getD []
    threads :=
      (data.threads.map (List.map fun t =>
        { id := t.id
          status := t.status
          comments :=
            (t.comments.map (List.map fun cm =>
              { id := cm.id
                author :=
                  { displayName := cm.author.displayName
                    uniqueName := cm.author.uniqueName }
                content := cm.content
                threadContext := cm.threadContext
                publishedDate := cm.publishedDate
                lastUpdatedDate := cm.lastUpdatedDate
                isDeleted := cm.isDeleted })).getD []
          threadContext := t.threadContext
          publishedDate := t.publishedDate
          lastUpdatedDate := t.lastUpdatedDate })).getD []
    url := data.url
    repository :=
      { name := jsOrS (data.repository.bind RepositoryData.name)
          params.repository
        url := jsOrS (data.repository.bind RepositoryData.url) "" }
    project :=
      { name := jsOrS ((data.repository.bind
            RepositoryData.project).bind ProjectRef.name) params.project
        url := jsOrS ((data.repository.bind
            RepositoryData.project).bind ProjectRef.url) "" } }

/-- A response whose createdBy has no uniqueName but has an email. -/
def examplePRDetails : PRDetailsData :=
  ⟨1, "T", none, some ⟨some "X", none, some "x@y.z"⟩, "2024-01-01",
    "refs/heads/a", "refs/heads/b", "active", none, none, none,
    "http://u", none⟩

theorem getPRReviewDetails_email_cex :
    examplePRDetails.createdBy.bind CreatedByData.uniqueName = none
    ∧ (getPRReviewDetailsMap exampleParams examplePRDetails).createdBy.uniqueName
        = "x@y.z"
    ∧ (getPRReviewDetailsMap exampleParams
        examplePRDetails).createdBy.uniqueName ≠ "unknown@example.com" := by
  refine ⟨rfl, rfl, ?_⟩
  decide

/-- C7 amended: getPRReviewDetails performs defaulting by JS truthiness (an
    absent or empty-string field is replaced), createdBy.uniqueName falls
    back first to createdBy.email and only then to the fixed address, and
    all other fields pass through unchanged, with absent reviewer, thread
    and comment lists becoming empty. -/
theorem getPRReviewDetails_defaults (params : AzureDevOpsParams)
    (data : PRDetailsData) :
    (getPRReviewDetailsMap params data).pullRequestId = data.pullRequestId
    ∧ (getPRReviewDetailsMap params data).title = data.title
    ∧ (getPRReviewDetailsMap params data).creationDate = data.creationDate
    ∧ (getPRReviewDetailsMap params data).sourceRefName = data.sourceRefName
    ∧ (getPRReviewDetailsMap params data).targetRefName = data.targetRefName
    ∧ (getPRReviewDetailsMap params data).status = data.status
    ∧ (getPRReviewDetailsMap params data).url = data.url
    ∧ (getPRReviewDetailsMap params data).description = data.description.getD ""
    ∧ (data.mergeStatus = none ∨ data.mergeStatus = some "" →
        (getPRReviewDetailsMap params data).mergeStatus = "unknown")
    ∧ (∀ s, data.mergeStatus = some s → s ≠ "" →
        (getPRReviewDetailsMap params data).mergeStatus = s)
    ∧ (data.createdBy = none →
        (getPRReviewDetailsMap params data).createdBy
          = ⟨"Unknown", "unknown@example.com"⟩)
    ∧ (∀ cb, data.createdBy = some cb →
        (∀ s, cb.displayName = some s → s ≠ "" →
          (getPRReviewDetailsMap params data).createdBy.displayName = s)
        ∧ (cb.displayName = none ∨ cb.displayName = some "" →
          (getPRReviewDetailsMap params data).createdBy.displayName
            = "Unknown")
        ∧ (∀ s, cb.uniqueName = some s → s ≠ "" →
          (getPRReviewDetailsMap params data).createdBy.uniqueName = s)
        ∧ (cb.uniqueName = none ∨ cb.uniqueName = some "" →
          ∀ e, cb.email = some e → e ≠ "" →
            (getPRReviewDetailsMap params data).createdBy.uniqueName = e)
        ∧ (cb.uniqueName = none ∨ cb.uniqueName = some "" →
            cb.email = none ∨ cb.email = some "" →
          (getPRReviewDetailsMap params data).createdBy.uniqueName
            = "unknown@example.com"))
    ∧ (data.reviewers = none →
        (getPRReviewDetailsMap params data).reviewers = [])
    ∧ (∀ l, data.reviewers = some l →
        (getPRReviewDetailsMap params data).reviewers = l)
    ∧ (data.threads = none → (getPRReviewDetailsMap params data).threads = [])
    ∧ (∀ l, data.threads = some l →
        (getPRReviewDetailsMap params data).threads
          = l.map fun t => ⟨t.id, t.status, t.comments.getD [],
              t.threadContext, t.publishedDate, t.lastUpdatedDate⟩) := by
  refine ⟨rfl, rfl, rfl, rfl, rfl, rfl, rfl, ?_, ?_, ?_, ?_, ?_, ?_, ?_, ?_,
    ?_⟩
  · rcases hdesc : data.description with _ | s
    · simp [getPRReviewDetailsMap, jsOrS, hdesc]
    · rcases eq_or_ne s "" with rfl | hs
      · simp [getPRReviewDetailsMap, jsOrS, hdesc]
      · simp [getPRReviewDetailsMap, jsOrS, hdesc, hs]
  · intro h
    rcases h with h | h <;> simp [getPRReviewDetailsMap, jsOrS, h]
  · intro s h hs
    simp [getPRReviewDetailsMap, jsOrS, h, hs]
  · intro h
    simp [getPRReviewDetailsMap, jsOrS, jsOrO, h]
  · intro cb hcb
    refine ⟨?_, ?_, ?_, ?_, ?_⟩
    · intro s h hs
      simp [getPRReviewDetailsMap, jsOrS, jsOrO, hcb, h, hs]
    · intro h
      rcases h with h | h <;>
        simp [getPRReviewDetailsMap, jsOrS, jsOrO, hcb, h]
    · intro s h hs
      simp [getPRReviewDetailsMap, jsOrS, jsOrO, hcb, h, hs]
    · intro h e he hne
      rcases h with h | h <;>
        simp [getPRReviewDetailsMap, jsOrS, jsOrO, hcb, h, he, hne]
    · intro h h2
      rcases h with h | h <;> rcases h2 with h2 | h2 <;>
        simp [getPRReviewDetailsMap, jsOrS, jsOrO, hcb, h, h2]
  · intro h
    simp [getPRReviewDetailsMap, h]
  · intro l h
    simp [getPRReviewDetailsMap, h]
  · intro h
    simp [getPRReviewDetailsMap, h]
  · intro l h
    simp [getPRReviewDetailsMap, h]

theorem getPRReviewDetails_defaults_witness :
    (getPRReviewDetailsMap exampleParams examplePRDetails).createdBy.uniqueName
      = "x@y.z" := by
  obtain ⟨-, -, -, -, -, -, -, -, -, -, -, hcb, -⟩ :=
    getPRReviewDetails_defaults exampleParams examplePRDetails
  exact (hcb ⟨some "X", none, some "x@y.z"⟩ rfl).2.2.2.1 (Or.inl rfl)
    "x@y.z" rfl (by decide)
